import Mathlib

/-!
Verification development for the incremental LOC cache-and-sync engine of
`today.py`.  The embedding models the core pass (`cache_builder`,
`flush_cache`, `recursive_loc`, `loc_counter_one_repo`, `force_close_file`)
over a line-oriented store, a scripted remote history source, and an
explicit trace of file-system operations (temp-file write / atomic rename)
so that atomic-persistence claims are statable.
-/

namespace Today

/-! ## Python string primitives

The cache file is a list of text lines (as returned by `readlines`, each
line normally ending in a newline character).  `pySplit` models Python's
`str.split()` with no arguments: split on runs of whitespace, dropping
empty chunks.  `pyInt?` models `int(...)`: strip surrounding whitespace,
optional sign, decimal digits; `none` models a raised `ValueError`.
`natRepr` models `str(...)` applied to a non-negative integer.
-/

/-- Tokenizer underlying `pySplit`: `cur` is the token accumulated so far. -/
def tokGo : List Char → List Char → List String
  | cur, [] => if cur.isEmpty then [] else [String.mk cur]
  | cur, c :: cs =>
    if c.isWhitespace then
      if cur.isEmpty then tokGo [] cs else String.mk cur :: tokGo [] cs
    else tokGo (cur ++ [c]) cs

/-- Model of Python `str.split()` (whitespace split, empties dropped). -/
def pySplit (s : String) : List String := tokGo [] s.data

/-- The decimal digit character for `d < 10`. -/
def digit_char (d : Nat) : Char := Char.ofNat (48 + d)

/-- Decimal rendering worker; `fuel` bounds the recursion (`n < fuel`). -/
def natReprGo : Nat → Nat → List Char
  | 0, _ => []
  | fuel + 1, n =>
    if n < 10 then [digit_char n] else natReprGo fuel (n / 10) ++ [digit_char (n % 10)]

/-- Model of Python `str(n)` for a non-negative integer. -/
def natRepr (n : Nat) : String := String.mk (natReprGo (n + 1) n)

/-- Value of a decimal digit character, if it is one. -/
def digitVal (c : Char) : Option Nat :=
  if '0' ≤ c ∧ c ≤ '9' then some (c.toNat - 48) else none

/-- Accumulating decimal parser over a digit list. -/
def readNatGo : List Char → Nat → Option Nat
  | [], acc => some acc
  | c :: cs, acc =>
    match digitVal c with
    | some d => readNatGo cs (acc * 10 + d)
    | none => none

/-- Parse a non-empty all-digit character list. -/
def readNat : List Char → Option Nat
  | [] => none
  | cs => readNatGo cs 0

/-- Strip leading and trailing whitespace characters. -/
def stripChars (cs : List Char) : List Char :=
  ((cs.dropWhile Char.isWhitespace).reverse.dropWhile Char.isWhitespace).reverse

/-- Signed decimal parser over characters (Python `int(...)` after strip). -/
def pyIntChars : List Char → Option Int
  | [] => none
  | c :: cs =>
    if c = '-' then (readNat cs).map (fun n => -(n : Int))
    else if c = '+' then (readNat cs).map (fun n => (n : Int))
    else (readNat (c :: cs)).map (fun n => (n : Int))

/-- Model of Python `int(s)`; `none` models a raised `ValueError`. -/
def pyInt? (s : String) : Option Int := pyIntChars (stripChars s.data)

/-! ## Data model

A `Commit` is one history node of the GraphQL page (`today.py` lines
173-185): the author's opaque account id (`none` when the account is not
resolvable, e.g. deleted), plus additions and deletions.  A `HistoryPage`
is one page of `history(first: 100, ...)`: the cheap total-commit-count
signal, the commit nodes, and the pagination flag.
-/

structure Commit where
  author : Option String
  additions : Nat
  deletions : Nat
deriving Repr, DecidableEq

structure HistoryPage where
  totalCount : Nat
  edges : List Commit
  hasNextPage : Bool
deriving Repr, DecidableEq

/-- One attempt outcome of the POST in `recursive_loc` (lines 203-215):
either a request-level (network) exception, or an HTTP response with a
status code; a 200 response carries `defaultBranchRef` (`none` = the repo
has no default branch). -/
inductive Attempt where
  | netErr : Attempt
  | resp (status : Nat) (branch : Option HistoryPage) : Attempt
deriving Repr, DecidableEq

/-- The abort reasons of `recursive_loc` (lines 210-243), i.e. the
`RuntimeError`s it can raise. -/
inductive WalkErr where
  | network : WalkErr
  | server (status : Nat) : WalkErr
  | forbidden : WalkErr
  | unexpected (status : Nat) : WalkErr
deriving Repr, DecidableEq

/-- `max_attempts = 4` in `recursive_loc` (line 200). -/
def max_attempts : Nat := 4

/-- The manual retry loop of `recursive_loc` (lines 203-243) for a single
page fetch.  `attempts` scripts the outcome of each attempt; `attempt` is
the 1-based attempt counter and `remaining` the attempts left
(`remaining = 1` corresponds to `attempt == max_attempts`). -/
def fetch_go (attempts : Nat → Attempt) : Nat → Nat → Except WalkErr (Option HistoryPage)
  | _, 0 => .error .network
  | attempt, remaining + 1 =>
    match attempts attempt with
    | .netErr =>
      if remaining = 0 then .error .network
      else fetch_go attempts (attempt + 1) remaining
    | .resp status branch =>
      if status = 200 then .ok branch
      else if 500 ≤ status ∧ status < 600 then
        if remaining = 0 then .error (.server status)
        else fetch_go attempts (attempt + 1) remaining
      else if status = 403 then .error .forbidden
      else .error (.unexpected status)

/-- One page fetch of `recursive_loc` including its retry loop. -/
def fetch (attempts : Nat → Attempt) : Except WalkErr (Option HistoryPage) :=
  fetch_go attempts 1 max_attempts

/-- Successful result of the whole walk: `zero` models the early
`return 0` for a branchless repository (line 222); `locs` models the
`(addition_total, deletion_total, my_commits)` tuple (line 258). -/
inductive WalkOk where
  | zero : WalkOk
  | locs (addition_total deletion_total my_commits : Nat) : WalkOk
deriving Repr, DecidableEq

/-- The author-filtering loop of `loc_counter_one_repo` (lines 251-255):
only commits whose author account id equals `ownerId` contribute.  The
accumulator is `(addition_total, deletion_total, my_commits)`. -/
def loc_author_fold (ownerId : String) : Nat × Nat × Nat → List Commit → Nat × Nat × Nat
  | acc, [] => acc
  | acc, c :: cs =>
    if c.author == some ownerId then
      loc_author_fold ownerId (acc.1 + c.additions, acc.2.1 + c.deletions, acc.2.2 + 1) cs
    else loc_author_fold ownerId acc cs

/-- The paginated history walk: `recursive_loc` (lines 160-243) with
`loc_counter_one_repo` (lines 246-259) inlined.  The remote is scripted as
one attempt function per page fetch; the walk consumes one script entry
per fetch and follows `hasNextPage` until a page has no next page or no
edges.  An exhausted script is treated as a network failure. -/
def recursive_loc (ownerId : String) :
    List (Nat → Attempt) → Nat → Nat → Nat → Except WalkErr WalkOk
  | [], _, _, _ => .error .network
  | p :: rest, addition_total, deletion_total, my_commits =>
    match fetch p with
    | .error e => .error e
    | .ok none => .ok .zero
    | .ok (some page) =>
      let acc := loc_author_fold ownerId (addition_total, deletion_total, my_commits) page.edges
      if page.edges.isEmpty || !page.hasNextPage then .ok (.locs acc.1 acc.2.1 acc.2.2)
      else recursive_loc ownerId rest acc.1 acc.2.1 acc.2.2

/-! ## The store and the cache pass -/

/-- One repository entry of the `edges` list fed to `cache_builder`
(from `loc_query`): its `nameWithOwner`, its
`defaultBranchRef.target.history.totalCount` (`none` when
`defaultBranchRef` is null), and the scripted remote behaviour of its
history walk. -/
structure RepoNode where
  nameWithOwner : String
  branchTotal : Option Nat
  script : List (Nat → Attempt)

/-- The Python exceptions the pass can raise: `ValueError` (tuple unpack /
`int(...)`), `IndexError` (list subscript), or the `RuntimeError` of an
aborted walk. -/
inductive PyErr where
  | valueError : PyErr
  | indexError : PyErr
  | walk (e : WalkErr) : PyErr
deriving Repr, DecidableEq

/-- File-system operations performed by the pass.  `writeTmp c` creates
the temp file with complete content `c`; `replace` is the atomic
`os.replace` onto the canonical name; `writeCanon` is a direct write to
the canonical file (the first-creation path, line 320). -/
inductive FsOp where
  | writeTmp (content : List String) : FsOp
  | replace : FsOp
  | writeCanon (content : List String) : FsOp
deriving Repr, DecidableEq

/-- The zero-valued record line (lines 341 and 368). -/
def zero_line (repo_hash : String) : String := repo_hash ++ " 0 0 0 0\n"

/-- The updated record line written at line 339:
`key total my_commits lines_added lines_deleted`. -/
def record_line (repo_hash : String) (total my add del : Nat) : String :=
  repo_hash ++ " " ++ natRepr total ++ " " ++ natRepr my ++ " " ++ natRepr add
    ++ " " ++ natRepr del ++ "\n"

/-- The comment line used when the cache file is first created (line 319). -/
def comment_line : String := "This line is a comment block. Write whatever you want here.\n"

/-- Content written by `flush_cache` (lines 355-369): the first
`comment_size` lines of the current file (only when `comment_size > 0`),
then one zero-valued record per repository, in order. -/
def flush_content (hash : String → String) (edges : List RepoNode) (comment_size : Nat)
    (cur : List String) : List String :=
  (if 0 < comment_size then cur.take comment_size else [])
    ++ edges.map (fun e => zero_line (hash e.nameWithOwner))

/-- `flush_cache` (lines 355-369): computes the rebuilt skeleton and the
atomic write that persists it. -/
def flush_cache (hash : String → String) (edges : List RepoNode) (comment_size : Nat)
    (cur : List String) : List String × List FsOp :=
  let c := flush_content hash edges comment_size cur
  (c, [FsOp.writeTmp c, FsOp.replace])

/-- The reconcile step of `cache_builder` (lines 323-327): flush the cache
iff the record-line count differs from the repository count or
`force_cache` is set.  Returns the (re-read) file content, the `cached`
flag (line 311 / 324), and the file-system operations performed. -/
def reconcile (hash : String → String) (comment_size : Nat) (force_cache : Bool)
    (edges : List RepoNode) (data0 : List String) : List String × Bool × List FsOp :=
  if (((data0.length : Int) - (comment_size : Int)) != (edges.length : Int)) || force_cache then
    let fc := flush_cache hash edges comment_size data0
    (fc.1, false, fc.2)
  else (data0, true, [])

/-- The trace of `force_close_file` (lines 391-404), primary path: a
single atomic temp-write + rename of `cache_comment ++ data` (the
best-effort non-atomic fallback for a failing temp write is not modelled;
the model has no disk failures). -/
def force_close_file (data cache_comment : List String) : List FsOp :=
  [FsOp.writeTmp (cache_comment ++ data), FsOp.replace]

/-- The per-repository loop of `cache_builder` (lines 331-341).  `index`
is the loop counter, `data` the record-line list being updated in place.
An error carries the `data` list as it stood when the exception was
raised (for the crash guard).  Mirroring Python's left-to-right
evaluation of the comparison at line 335, `int(commit_count)` is
evaluated first: an unparsable stored count raises `ValueError` (not
caught by the `except TypeError`) even when `defaultBranchRef` is null;
only after a successful parse does subscripting the null branch raise
the caught `TypeError` that zeroes the record. -/
def build_loop (hash : String → String) (ownerId : String) :
    List RepoNode → Nat → List String → Except (PyErr × List String) (List String)
  | [], _, data => .ok data
  | e :: rest, index, data =>
    match data[index]? with
    | none => .error (.indexError, data)
    | some line =>
      match pySplit line with
      | repo_hash :: commit_count :: _ =>
        if repo_hash = hash e.nameWithOwner then
          match pyInt? commit_count with
          | none => .error (.valueError, data)
          | some cc =>
            match e.branchTotal with
            | none =>
              build_loop hash ownerId rest (index + 1) (data.set index (zero_line repo_hash))
            | some total =>
              if cc ≠ (total : Int) then
                match recursive_loc ownerId e.script 0 0 0 with
                | .error we => .error (.walk we, data)
                | .ok .zero =>
                  build_loop hash ownerId rest (index + 1) (data.set index (zero_line repo_hash))
                | .ok (.locs a d m) =>
                  build_loop hash ownerId rest (index + 1)
                    (data.set index (record_line repo_hash total m a d))
              else build_loop hash ownerId rest (index + 1) data
        else build_loop hash ownerId rest (index + 1) data
      | _ => .error (.valueError, data)

/-- The final summation loop of `cache_builder` (lines 348-351). -/
def sum_loop : List String → Int → Int → Except PyErr (Int × Int)
  | [], loc_add, loc_del => .ok (loc_add, loc_del)
  | line :: rest, loc_add, loc_del =>
    let loc := pySplit line
    match loc[3]? with
    | none => .error .indexError
    | some s3 =>
      match pyInt? s3 with
      | none => .error .valueError
      | some x =>
        match loc[4]? with
        | none => .error .indexError
        | some s4 =>
          match pyInt? s4 with
          | none => .error .valueError
          | some y => sum_loop rest (loc_add + x) (loc_del + y)

/-- Everything after the reconcile step of `cache_builder` (lines
329-352): run the per-repository loop, persist atomically (or invoke the
crash guard on a walk abort), then sum.  Returns the file-system
operations of this part and the outcome
`[loc_add, loc_del, loc_add - loc_del, cached]`. -/
def cache_finish (hash : String → String) (ownerId : String) (edges : List RepoNode)
    (cache_comment recs : List String) (cached : Bool) :
    List FsOp × Except PyErr (Int × Int × Int × Bool) :=
  match build_loop hash ownerId edges 0 recs with
  | .error (.walk we, d) => (force_close_file d cache_comment, .error (.walk we))
  | .error (.valueError, _) => ([], .error .valueError)
  | .error (.indexError, _) => ([], .error .indexError)
  | .ok data2 =>
    let ops := [FsOp.writeTmp (cache_comment ++ data2), FsOp.replace]
    match sum_loop data2 0 0 with
    | .error pe => (ops, .error pe)
    | .ok (a, d) => (ops, .ok (a, d, a - d, cached))

/-- `cache_builder` (lines 306-352).  `store` is the canonical file
content (`none` = `FileNotFoundError`).  Returns the full trace of
file-system operations, the `cached` flag as set by the reconcile step,
and the result `[loc_add, loc_del, loc_add - loc_del, cached]` or the
exception that escaped. -/
def cache_builder (hash : String → String) (ownerId : String) (comment_size : Nat)
    (force_cache : Bool) (edges : List RepoNode) (store : Option (List String)) :
    List FsOp × Bool × Except PyErr (Int × Int × Int × Bool) :=
  let data0 := match store with
    | some d => d
    | none => List.replicate comment_size comment_line
  let ops0 : List FsOp := match store with
    | some _ => []
    | none => [FsOp.writeCanon (List.replicate comment_size comment_line)]
  let r := reconcile hash comment_size force_cache edges data0
  let f := cache_finish hash ownerId edges (r.1.take comment_size) (r.1.drop comment_size) r.2.1
  (ops0 ++ r.2.2 ++ f.1, r.2.1, f.2)

/-! ## File-system trace semantics -/

/-- State of the cache directory: canonical file and temp file contents. -/
structure FsState where
  canon : Option (List String)
  tmp : Option (List String)
deriving Repr, DecidableEq

/-- Effect of one file-system operation. -/
def applyOp (s : FsState) : FsOp → FsState
  | .writeTmp c => { s with tmp := some c }
  | .replace =>
    match s.tmp with
    | some c => { canon := some c, tmp := none }
    | none => s
  | .writeCanon c => { s with canon := some c }

/-- Run a trace of file-system operations. -/
def runOps (s : FsState) (ops : List FsOp) : FsState := ops.foldl applyOp s

/-- Initial state for a given canonical file content. -/
def initState (store : Option (List String)) : FsState := ⟨store, none⟩

/-- Canonical file content after a trace. -/
def finalFile (store : Option (List String)) (ops : List FsOp) : Option (List String) :=
  (runOps (initState store) ops).canon

/-- All canonical-file contents observable during a trace (including the
initial one). -/
def canonStates (s : FsState) (ops : List FsOp) : List (Option (List String)) :=
  (ops.scanl applyOp s).map FsState.canon

/-- A trace made solely of complete-temp-write + atomic-rename pairs. -/
def atomicBlocksB : List FsOp → Bool
  | [] => true
  | .writeTmp _ :: .replace :: rest => atomicBlocksB rest
  | _ => false

/-- The record list carried by a loop outcome (the list the crash guard
would persist). -/
def carried : Except (PyErr × List String) (List String) → List String
  | .ok d => d
  | .error (_, d) => d

/-- Honest remote script for a walk over the given pages: every fetch
succeeds on the first attempt with status 200 and `hasNextPage` set
exactly when more pages follow. -/
def honestScript (tc : Nat) : List (List Commit) → List (Nat → Attempt)
  | [] => []
  | p :: rest =>
    (fun _ => Attempt.resp 200 (some ⟨tc, p, !rest.isEmpty⟩)) :: honestScript tc rest

instance {ε α : Type} [DecidableEq ε] [DecidableEq α] : DecidableEq (Except ε α) := fun x y =>
  match x, y with
  | .ok a, .ok b =>
    if h : a = b then .isTrue (by rw [h]) else .isFalse (by intro hc; cases hc; exact h rfl)
  | .error a, .error b =>
    if h : a = b then .isTrue (by rw [h]) else .isFalse (by intro hc; cases hc; exact h rfl)
  | .ok _, .error _ => .isFalse (by intro hc; cases hc)
  | .error _, .ok _ => .isFalse (by intro hc; cases hc)

/-! ## Concrete fixtures used to exercise the model on closed inputs -/

/-- A two-character digest stand-in distinguishing the two fixture repos. -/
def wit_hash : String → String := fun s => if s = "a/b" then "KA" else "KB"

/-- Two repositories: a cache hit, and a stale one whose walk hits the
anti-abuse (403) signal on its first fetch. -/
def wit_edges : List RepoNode :=
  [⟨"a/b", some 7, []⟩, ⟨"c/d", some 9, [fun _ => Attempt.resp 403 none]⟩]

/-- A store for `wit_edges`: one header line and two well-formed records. -/
def wit_store : List String := ["hdr\n", "KA 7 1 2 3\n", "KB 4 1 2 3\n"]

/-! ## Lemmas on the string primitives -/

theorem tokGo_token (tok : List Char) (hws : ∀ c ∈ tok, ¬ c.isWhitespace) :
    ∀ (cur rest : List Char), tokGo cur (tok ++ rest) = tokGo (cur ++ tok) rest := by
  induction tok with
  | nil => intro cur rest; simp
  | cons c t ih =>
    intro cur rest
    have hc : c.isWhitespace = false := by
      have := hws c (by simp)
      simpa using this
    have ht : ∀ x ∈ t, ¬ x.isWhitespace := fun x hx => hws x (by simp [hx])
    simp only [List.cons_append, tokGo, hc, Bool.false_eq_true, if_false, List.append_eq]
    rw [ih ht (cur ++ [c]) rest, List.append_assoc]
    rfl

theorem tokGo_mem (cs : List Char) :
    ∀ (cur : List Char), (∀ c ∈ cur, ¬ c.isWhitespace) →
      ∀ t ∈ tokGo cur cs, t.data ≠ [] ∧ ∀ c ∈ t.data, ¬ c.isWhitespace := by
  induction cs with
  | nil =>
    intro cur hcur t ht
    by_cases h : cur.isEmpty
    · simp [tokGo, h] at ht
    · simp only [tokGo, h, Bool.false_eq_true, if_false, List.mem_singleton] at ht
      subst ht
      exact ⟨by simpa [List.isEmpty_iff] using h, hcur⟩
  | cons c cs ih =>
    intro cur hcur t ht
    by_cases hws : c.isWhitespace
    · by_cases h : cur.isEmpty
      · simp only [tokGo, hws, if_true, h] at ht
        exact ih [] (by simp) t ht
      · simp only [tokGo, hws, if_true, h, Bool.false_eq_true, if_false,
          List.mem_cons] at ht
        rcases ht with rfl | ht
        · exact ⟨by simpa [List.isEmpty_iff] using h, hcur⟩
        · exact ih [] (by simp) t ht
    · simp only [tokGo, hws, Bool.false_eq_true, if_false] at ht
      refine ih (cur ++ [c]) ?_ t ht
      intro x hx
      rcases List.mem_append.1 hx with hx | hx
      · exact hcur x hx
      · simp only [List.mem_singleton] at hx; subst hx; exact hws

theorem pySplit_mem (s : String) :
    ∀ t ∈ pySplit s, t.data ≠ [] ∧ ∀ c ∈ t.data, ¬ c.isWhitespace :=
  tokGo_mem s.data [] (by simp)

theorem tokGo_space (cur rest : List Char) :
    tokGo cur (' ' :: rest)
      = if cur.isEmpty then tokGo [] rest else String.mk cur :: tokGo [] rest := by
  simp [tokGo, Char.isWhitespace]

theorem tokGo_newline_end (cur : List Char) :
    tokGo cur ['\n'] = if cur.isEmpty then [] else [String.mk cur] := by
  simp [tokGo, Char.isWhitespace]

theorem natReprGo_digits :
    ∀ (fuel n : Nat), n < fuel →
      natReprGo fuel n ≠ [] ∧ ∀ c ∈ natReprGo fuel n, ∃ d, d < 10 ∧ c = digit_char d := by
  intro fuel
  induction fuel with
  | zero => intro n hn; omega
  | succ fuel ih =>
    intro n hn
    by_cases h : n < 10
    · constructor
      · simp [natReprGo, h]
      · intro c hc
        simp only [natReprGo, h, if_true, List.mem_singleton] at hc
        exact ⟨n, h, hc⟩
    · have hdiv : n / 10 < fuel := by
        have h1 : n / 10 < n := Nat.div_lt_self (by omega) (by omega)
        omega
      obtain ⟨hne, hmem⟩ := ih (n / 10) hdiv
      constructor
      · simp [natReprGo, h]
      · intro c hc
        simp only [natReprGo, h, if_false, List.mem_append, List.mem_singleton] at hc
        rcases hc with hc | rfl
        · exact hmem c hc
        · exact ⟨n % 10, Nat.mod_lt _ (by omega), rfl⟩

theorem digit_char_not_ws : ∀ d, d < 10 → (digit_char d).isWhitespace = false := by decide

theorem digit_char_ne_sign : ∀ d, d < 10 → digit_char d ≠ '-' ∧ digit_char d ≠ '+' := by decide

theorem digitVal_digit_char : ∀ d, d < 10 → digitVal (digit_char d) = some d := by decide

theorem natRepr_not_ws (n : Nat) : ∀ c ∈ (natRepr n).data, ¬ c.isWhitespace := by
  intro c hc
  obtain ⟨_, hmem⟩ := natReprGo_digits (n + 1) n (Nat.lt_succ_self n)
  obtain ⟨d, hd, rfl⟩ := hmem c hc
  simp [digit_char_not_ws d hd]

theorem natRepr_ne_nil (n : Nat) : (natRepr n).data ≠ [] :=
  (natReprGo_digits (n + 1) n (Nat.lt_succ_self n)).1

theorem readNatGo_append (xs : List Char) :
    ∀ (ys : List Char) (acc : Nat),
      readNatGo (xs ++ ys) acc = (readNatGo xs acc).bind (fun a => readNatGo ys a) := by
  induction xs with
  | nil => intro ys acc; rfl
  | cons c t ih =>
    intro ys acc
    simp only [List.cons_append, readNatGo]
    cases digitVal c with
    | none => rfl
    | some d => exact ih ys (acc * 10 + d)

theorem readNatGo_natReprGo :
    ∀ (fuel n acc : Nat), n < fuel →
      readNatGo (natReprGo fuel n) acc = some (acc * 10 ^ (natReprGo fuel n).length + n) := by
  intro fuel
  induction fuel with
  | zero => intro n acc hn; omega
  | succ fuel ih =>
    intro n acc hn
    by_cases h : n < 10
    · simp [natReprGo, h, readNatGo, digitVal_digit_char n h]
    · have hdiv : n / 10 < fuel := by
        have h1 : n / 10 < n := Nat.div_lt_self (by omega) (by omega)
        omega
      simp only [natReprGo, h, if_false, readNatGo_append, ih (n / 10) _ hdiv,
        Option.some_bind, readNatGo, digitVal_digit_char (n % 10) (Nat.mod_lt _ (by omega)),
        List.length_append, List.length_singleton]
      congr 1
      generalize (natReprGo fuel (n / 10)).length = L
      rw [pow_succ]
      have h10 : n / 10 * 10 + n % 10 = n := by omega
      calc (acc * 10 ^ L + n / 10) * 10 + n % 10
          = acc * (10 ^ L * 10) + (n / 10 * 10 + n % 10) := by ring
        _ = acc * (10 ^ L * 10) + n := by rw [h10]

theorem readNat_eq_go (cs : List Char) (h : cs ≠ []) : readNat cs = readNatGo cs 0 := by
  cases cs with
  | nil => exact absurd rfl h
  | cons c t => rfl

theorem readNat_natRepr (n : Nat) : readNat (natRepr n).data = some n := by
  have hne : natReprGo (n + 1) n ≠ [] := (natReprGo_digits (n + 1) n (Nat.lt_succ_self n)).1
  have hval := readNatGo_natReprGo (n + 1) n 0 (Nat.lt_succ_self n)
  rw [show (natRepr n).data = natReprGo (n + 1) n from rfl, readNat_eq_go _ hne, hval]
  simp

theorem dropWhile_of_not_head (cs : List Char) (h : ∀ c ∈ cs, ¬ c.isWhitespace) :
    cs.dropWhile Char.isWhitespace = cs := by
  cases cs with
  | nil => rfl
  | cons c t =>
    have : c.isWhitespace = false := by simpa using h c (by simp)
    simp [List.dropWhile_cons, this]

theorem stripChars_eq_self (cs : List Char) (h : ∀ c ∈ cs, ¬ c.isWhitespace) :
    stripChars cs = cs := by
  unfold stripChars
  rw [dropWhile_of_not_head cs h]
  rw [dropWhile_of_not_head cs.reverse (by intro c hc; exact h c (List.mem_reverse.1 hc))]
  exact List.reverse_reverse cs

theorem pyInt?_natRepr (n : Nat) : pyInt? (natRepr n) = some (n : Int) := by
  unfold pyInt?
  rw [stripChars_eq_self _ (natRepr_not_ws n)]
  obtain ⟨hne, hmem⟩ := natReprGo_digits (n + 1) n (Nat.lt_succ_self n)
  have hdata : (natRepr n).data = natReprGo (n + 1) n := rfl
  cases hd : natReprGo (n + 1) n with
  | nil => exact absurd hd hne
  | cons c t =>
    obtain ⟨d, hdlt, hcd⟩ := hmem c (by rw [hd]; simp)
    have hsign := digit_char_ne_sign d hdlt
    have hc1 : c ≠ '-' := by rw [hcd]; exact hsign.1
    have hc2 : c ≠ '+' := by rw [hcd]; exact hsign.2
    rw [hdata, hd]
    simp only [pyIntChars, hc1, hc2, if_false]
    have := readNat_natRepr n
    rw [hdata, hd] at this
    rw [this]
    rfl

theorem natRepr_zero : natRepr 0 = "0" := by decide

theorem zero_line_eq_record_line (rh : String) : zero_line rh = record_line rh 0 0 0 0 := by
  apply String.ext
  simp only [zero_line, record_line, natRepr_zero, String.data_append, List.append_assoc]
  congr 1

theorem tokGo_field (f : String) (hne : f.data ≠ []) (hws : ∀ c ∈ f.data, ¬ c.isWhitespace)
    (rest : List Char) : tokGo [] (f.data ++ ' ' :: rest) = f :: tokGo [] rest := by
  have hE : f.data.isEmpty = false := by
    cases hd : f.data with
    | nil => exact absurd hd hne
    | cons c t => rfl
  have hmk : String.mk f.data = f := rfl
  rw [tokGo_token f.data hws [] (' ' :: rest), List.nil_append, tokGo_space]
  simp [hE, hmk]

theorem tokGo_last (f : String) (hne : f.data ≠ []) (hws : ∀ c ∈ f.data, ¬ c.isWhitespace) :
    tokGo [] (f.data ++ ['\n']) = [f] := by
  have hE : f.data.isEmpty = false := by
    cases hd : f.data with
    | nil => exact absurd hd hne
    | cons c t => rfl
  have hmk : String.mk f.data = f := rfl
  rw [tokGo_token f.data hws [] ['\n'], List.nil_append, tokGo_newline_end]
  simp [hE, hmk]

theorem pySplit_record (rh : String) (hne : rh.data ≠ [])
    (hws : ∀ c ∈ rh.data, ¬ c.isWhitespace) (t m a d : Nat) :
    pySplit (record_line rh t m a d) = [rh, natRepr t, natRepr m, natRepr a, natRepr d] := by
  have hsp : (" " : String).data = [' '] := rfl
  have hnl : ("\n" : String).data = ['\n'] := rfl
  unfold pySplit record_line
  simp only [String.data_append, List.append_assoc, hsp, hnl, List.singleton_append,
    List.cons_append, List.nil_append]
  rw [tokGo_field rh hne hws, tokGo_field (natRepr t) (natRepr_ne_nil t) (natRepr_not_ws t),
    tokGo_field (natRepr m) (natRepr_ne_nil m) (natRepr_not_ws m),
    tokGo_field (natRepr a) (natRepr_ne_nil a) (natRepr_not_ws a),
    tokGo_last (natRepr d) (natRepr_ne_nil d) (natRepr_not_ws d)]

theorem pySplit_zero_line (rh : String) (hne : rh.data ≠ [])
    (hws : ∀ c ∈ rh.data, ¬ c.isWhitespace) :
    pySplit (zero_line rh) = [rh, natRepr 0, natRepr 0, natRepr 0, natRepr 0] := by
  rw [zero_line_eq_record_line]
  exact pySplit_record rh hne hws 0 0 0 0

/-! ## List helpers -/

theorem set_of_getq {α : Type} (l : List α) :
    ∀ (i : Nat) (v : α), l[i]? = some v → l.set i v = l := by
  induction l with
  | nil => intro i v h; simp at h
  | cons x t ih =>
    intro i v h
    cases i with
    | zero => simp_all
    | succ j =>
      simp only [List.getElem?_cons_succ] at h
      simp [List.set_cons_succ, ih j v h]

/-! ## Step equations for the per-repository loop -/

theorem build_loop_step_none (hash : String → String) (ownerId : String) (e : RepoNode)
    (rest : List RepoNode) (i : Nat) (data : List String) (hline : data[i]? = none) :
    build_loop hash ownerId (e :: rest) i data = .error (.indexError, data) := by
  simp only [build_loop, hline]

theorem build_loop_step_nil (hash : String → String) (ownerId : String) (e : RepoNode)
    (rest : List RepoNode) (i : Nat) (data : List String) (line : String)
    (hline : data[i]? = some line) (hsplit : pySplit line = []) :
    build_loop hash ownerId (e :: rest) i data = .error (.valueError, data) := by
  simp only [build_loop, hline, hsplit]

theorem build_loop_step_single (hash : String → String) (ownerId : String) (e : RepoNode)
    (rest : List RepoNode) (i : Nat) (data : List String) (line x : String)
    (hline : data[i]? = some line) (hsplit : pySplit line = [x]) :
    build_loop hash ownerId (e :: rest) i data = .error (.valueError, data) := by
  simp only [build_loop, hline, hsplit]

theorem build_loop_step_miss (hash : String → String) (ownerId : String) (e : RepoNode)
    (rest : List RepoNode) (i : Nat) (data : List String) (line rh cc : String)
    (tl : List String) (hline : data[i]? = some line) (hsplit : pySplit line = rh :: cc :: tl)
    (hkey : rh ≠ hash e.nameWithOwner) :
    build_loop hash ownerId (e :: rest) i data = build_loop hash ownerId rest (i + 1) data := by
  simp only [build_loop, hline, hsplit]
  rw [if_neg hkey]

theorem build_loop_step_nobranch (hash : String → String) (ownerId : String) (e : RepoNode)
    (rest : List RepoNode) (i : Nat) (data : List String) (line rh cc : String)
    (tl : List String) (v : Int) (hline : data[i]? = some line)
    (hsplit : pySplit line = rh :: cc :: tl) (hkey : rh = hash e.nameWithOwner)
    (hcc : pyInt? cc = some v) (hbr : e.branchTotal = none) :
    build_loop hash ownerId (e :: rest) i data
      = build_loop hash ownerId rest (i + 1) (data.set i (zero_line rh)) := by
  simp only [build_loop, hline, hsplit, hcc, hbr]
  rw [if_pos hkey]

theorem build_loop_step_badcc (hash : String → String) (ownerId : String) (e : RepoNode)
    (rest : List RepoNode) (i : Nat) (data : List String) (line rh cc : String)
    (tl : List String) (hline : data[i]? = some line)
    (hsplit : pySplit line = rh :: cc :: tl) (hkey : rh = hash e.nameWithOwner)
    (hcc : pyInt? cc = none) :
    build_loop hash ownerId (e :: rest) i data = .error (.valueError, data) := by
  simp only [build_loop, hline, hsplit, hcc]
  rw [if_pos hkey]

theorem build_loop_step_hit (hash : String → String) (ownerId : String) (e : RepoNode)
    (rest : List RepoNode) (i : Nat) (data : List String) (line rh cc : String)
    (tl : List String) (total : Nat) (hline : data[i]? = some line)
    (hsplit : pySplit line = rh :: cc :: tl) (hkey : rh = hash e.nameWithOwner)
    (hbr : e.branchTotal = some total) (hcc : pyInt? cc = some (total : Int)) :
    build_loop hash ownerId (e :: rest) i data = build_loop hash ownerId rest (i + 1) data := by
  simp only [build_loop, hline, hsplit, hbr, hcc]
  rw [if_pos hkey, if_neg (by simp)]

theorem build_loop_step_walk_err (hash : String → String) (ownerId : String) (e : RepoNode)
    (rest : List RepoNode) (i : Nat) (data : List String) (line rh cc : String)
    (tl : List String) (total : Nat) (v : Int) (we : WalkErr) (hline : data[i]? = some line)
    (hsplit : pySplit line = rh :: cc :: tl) (hkey : rh = hash e.nameWithOwner)
    (hbr : e.branchTotal = some total) (hcc : pyInt? cc = some v) (hv : v ≠ (total : Int))
    (hwalk : recursive_loc ownerId e.script 0 0 0 = .error we) :
    build_loop hash ownerId (e :: rest) i data = .error (.walk we, data) := by
  simp only [build_loop, hline, hsplit, hbr, hcc, hwalk]
  rw [if_pos hkey, if_pos hv]

theorem build_loop_step_walk_zero (hash : String → String) (ownerId : String) (e : RepoNode)
    (rest : List RepoNode) (i : Nat) (data : List String) (line rh cc : String)
    (tl : List String) (total : Nat) (v : Int) (hline : data[i]? = some line)
    (hsplit : pySplit line = rh :: cc :: tl) (hkey : rh = hash e.nameWithOwner)
    (hbr : e.branchTotal = some total) (hcc : pyInt? cc = some v) (hv : v ≠ (total : Int))
    (hwalk : recursive_loc ownerId e.script 0 0 0 = .ok .zero) :
    build_loop hash ownerId (e :: rest) i data
      = build_loop hash ownerId rest (i + 1) (data.set i (zero_line rh)) := by
  simp only [build_loop, hline, hsplit, hbr, hcc, hwalk]
  rw [if_pos hkey, if_pos hv]

theorem build_loop_step_walk_locs (hash : String → String) (ownerId : String) (e : RepoNode)
    (rest : List RepoNode) (i : Nat) (data : List String) (line rh cc : String)
    (tl : List String) (total : Nat) (v : Int) (a d m : Nat) (hline : data[i]? = some line)
    (hsplit : pySplit line = rh :: cc :: tl) (hkey : rh = hash e.nameWithOwner)
    (hbr : e.branchTotal = some total) (hcc : pyInt? cc = some v) (hv : v ≠ (total : Int))
    (hwalk : recursive_loc ownerId e.script 0 0 0 = .ok (.locs a d m)) :
    build_loop hash ownerId (e :: rest) i data
      = build_loop hash ownerId rest (i + 1) (data.set i (record_line rh total m a d)) := by
  simp only [build_loop, hline, hsplit, hbr, hcc, hwalk]
  rw [if_pos hkey, if_pos hv]

/-- Every step of the loop either raises with `data` untouched, or
continues at `index + 1` with a list of the same length changed at most
at position `index`. -/
theorem build_loop_step_shape (hash : String → String) (ownerId : String) (e : RepoNode)
    (rest : List RepoNode) (i : Nat) (data : List String) :
    (data[i]? = none ∧ build_loop hash ownerId (e :: rest) i data = .error (.indexError, data))
    ∨ (∃ pe, pe ≠ PyErr.indexError
        ∧ build_loop hash ownerId (e :: rest) i data = .error (pe, data))
    ∨ (i < data.length ∧ ∃ data', data'.length = data.length
        ∧ (∀ j, j ≠ i → data'[j]? = data[j]?)
        ∧ build_loop hash ownerId (e :: rest) i data
            = build_loop hash ownerId rest (i + 1) data') := by
  cases hline : data[i]? with
  | none => exact Or.inl ⟨rfl, build_loop_step_none _ _ _ _ _ _ hline⟩
  | some line =>
    have hi : i < data.length := by
      by_contra hc
      rw [List.getElem?_eq_none (by omega)] at hline
      cases hline
    cases hsp : pySplit line with
    | nil =>
      exact Or.inr (Or.inl ⟨.valueError, by simp,
        build_loop_step_nil _ _ _ _ _ _ _ hline hsp⟩)
    | cons rh tl =>
      cases tl with
      | nil =>
        exact Or.inr (Or.inl ⟨.valueError, by simp,
          build_loop_step_single _ _ _ _ _ _ _ _ hline hsp⟩)
      | cons cc tl2 =>
        by_cases hkey : rh = hash e.nameWithOwner
        · cases hcc : pyInt? cc with
          | none =>
            exact Or.inr (Or.inl ⟨.valueError, by simp,
              build_loop_step_badcc _ _ _ _ _ _ _ _ _ _ hline hsp hkey hcc⟩)
          | some v =>
            cases hbr : e.branchTotal with
            | none =>
              refine Or.inr (Or.inr ⟨hi, data.set i (zero_line rh), List.length_set data i _,
                fun j hj => List.getElem?_set_ne (Ne.symm hj), ?_⟩)
              exact build_loop_step_nobranch _ _ _ _ _ _ _ _ _ _ _ hline hsp hkey hcc hbr
            | some total =>
              by_cases hv : v = (total : Int)
              · subst hv
                refine Or.inr (Or.inr ⟨hi, data, rfl, fun j _ => rfl, ?_⟩)
                exact build_loop_step_hit _ _ _ _ _ _ _ _ _ _ _ hline hsp hkey hbr hcc
              · cases hwalk : recursive_loc ownerId e.script 0 0 0 with
                | error we =>
                  exact Or.inr (Or.inl ⟨.walk we, by simp,
                    build_loop_step_walk_err _ _ _ _ _ _ _ _ _ _ _ _ _
                      hline hsp hkey hbr hcc hv hwalk⟩)
                | ok w =>
                  cases w with
                  | zero =>
                    refine Or.inr (Or.inr ⟨hi, data.set i (zero_line rh),
                      List.length_set data i _,
                      fun j hj => List.getElem?_set_ne (Ne.symm hj), ?_⟩)
                    exact build_loop_step_walk_zero _ _ _ _ _ _ _ _ _ _ _ _
                      hline hsp hkey hbr hcc hv hwalk
                  | locs a d m =>
                    refine Or.inr (Or.inr ⟨hi, data.set i (record_line rh total m a d),
                      List.length_set data i _,
                      fun j hj => List.getElem?_set_ne (Ne.symm hj), ?_⟩)
                    exact build_loop_step_walk_locs _ _ _ _ _ _ _ _ _ _ _ _ _ _ _
                      hline hsp hkey hbr hcc hv hwalk
        · refine Or.inr (Or.inr ⟨hi, data, rfl, fun j _ => rfl, ?_⟩)
          exact build_loop_step_miss _ _ _ _ _ _ _ _ _ _ hline hsp hkey

theorem build_loop_frame (hash : String → String) (ownerId : String) (es : List RepoNode) :
    ∀ (i : Nat) (data : List String) (j : Nat), j < i →
      (carried (build_loop hash ownerId es i data))[j]? = data[j]? := by
  induction es with
  | nil => intro i data j hj; rfl
  | cons e rest ih =>
    intro i data j hj
    rcases build_loop_step_shape hash ownerId e rest i data with
      ⟨_, heq⟩ | ⟨pe, _, heq⟩ | ⟨_, data', _, hframe, heq⟩
    · rw [heq]; rfl
    · rw [heq]; rfl
    · rw [heq, ih (i + 1) data' j (by omega), hframe j (by omega)]

theorem build_loop_length (hash : String → String) (ownerId : String) (es : List RepoNode) :
    ∀ (i : Nat) (data : List String),
      (carried (build_loop hash ownerId es i data)).length = data.length := by
  induction es with
  | nil => intro i data; rfl
  | cons e rest ih =>
    intro i data
    rcases build_loop_step_shape hash ownerId e rest i data with
      ⟨_, heq⟩ | ⟨pe, _, heq⟩ | ⟨_, data', hlen, _, heq⟩
    · rw [heq]; rfl
    · rw [heq]; rfl
    · rw [heq, ih (i + 1) data', hlen]

theorem build_loop_success_bound (hash : String → String) (ownerId : String)
    (es : List RepoNode) :
    ∀ (i : Nat) (data data2 : List String),
      build_loop hash ownerId es i data = .ok data2 → es.length ≤ data.length - i := by
  induction es with
  | nil => intro i data data2 _; simp
  | cons e rest ih =>
    intro i data data2 h
    rcases build_loop_step_shape hash ownerId e rest i data with
      ⟨_, heq⟩ | ⟨pe, _, heq⟩ | ⟨hi, data', hlen, _, heq⟩
    · rw [heq] at h; cases h
    · rw [heq] at h; cases h
    · rw [heq] at h
      have := ih (i + 1) data' data2 h
      rw [hlen] at this
      simp only [List.length_cons]
      omega

theorem build_loop_no_index_error (hash : String → String) (ownerId : String)
    (es : List RepoNode) :
    ∀ (i : Nat) (data : List String), i + es.length ≤ data.length →
      ∀ d, build_loop hash ownerId es i data ≠ .error (.indexError, d) := by
  induction es with
  | nil => intro i data _ d h; cases h
  | cons e rest ih =>
    intro i data hlen d h
    simp only [List.length_cons] at hlen
    rcases build_loop_step_shape hash ownerId e rest i data with
      ⟨hnone, heq⟩ | ⟨pe, hpe, heq⟩ | ⟨hi, data', hlen', _, heq⟩
    · rw [List.getElem?_eq_getElem (by omega)] at hnone
      cases hnone
    · rw [heq] at h
      cases h
      exact hpe rfl
    · rw [heq] at h
      exact ih (i + 1) data' (by omega) d h

theorem getq_set_self {α : Type} (l : List α) :
    ∀ (i : Nat) (v : α), i < l.length → (l.set i v)[i]? = some v := by
  induction l with
  | nil => intro i v h; simp at h
  | cons x t ih =>
    intro i v h
    cases i with
    | zero => simp
    | succ j =>
      simp only [List.set_cons_succ, List.getElem?_cons_succ]
      exact ih j v (by simpa using h)

theorem build_loop_ok_frame (hash : String → String) (ownerId : String) (rest : List RepoNode)
    (i : Nat) (d' data2 : List String)
    (h : build_loop hash ownerId rest (i + 1) d' = .ok data2) (j : Nat) (hj : j < i + 1) :
    data2[j]? = d'[j]? := by
  have hfr := build_loop_frame hash ownerId rest (i + 1) d' j hj
  rw [h] at hfr
  exact hfr

/-- A successful pass is a fixpoint: re-running the per-repository loop on
its own output changes nothing (every position is a cache hit, a key-skip,
or a recomputation writing the identical record). -/
theorem build_loop_fixpoint (hash : String → String) (ownerId : String) (es : List RepoNode) :
    ∀ (i : Nat) (data data2 : List String),
      build_loop hash ownerId es i data = .ok data2 →
      build_loop hash ownerId es i data2 = .ok data2 := by
  induction es with
  | nil =>
    intro i data data2 h
    cases h
    rfl
  | cons e rest ih =>
    intro i data data2 h
    cases hline : data[i]? with
    | none => rw [build_loop_step_none _ _ _ _ _ _ hline] at h; cases h
    | some line =>
      have hi : i < data.length := by
        by_contra hc
        rw [List.getElem?_eq_none (by omega)] at hline
        cases hline
      cases hsp : pySplit line with
      | nil => rw [build_loop_step_nil _ _ _ _ _ _ _ hline hsp] at h; cases h
      | cons rh tl =>
        cases tl with
        | nil => rw [build_loop_step_single _ _ _ _ _ _ _ _ hline hsp] at h; cases h
        | cons cc tl2 =>
          have hrh := pySplit_mem line rh (by rw [hsp]; simp)
          by_cases hkey : rh = hash e.nameWithOwner
          · cases hcc : pyInt? cc with
            | none =>
              rw [build_loop_step_badcc _ _ _ _ _ _ _ _ _ _ hline hsp hkey hcc] at h
              cases h
            | some v =>
              cases hbr : e.branchTotal with
              | none =>
                rw [build_loop_step_nobranch _ _ _ _ _ _ _ _ _ _ _
                  hline hsp hkey hcc hbr] at h
                have hz : data2[i]? = some (zero_line rh) := by
                  rw [build_loop_ok_frame _ _ _ _ _ _ h i (by omega)]
                  exact getq_set_self data i _ hi
                rw [build_loop_step_nobranch hash ownerId e rest i data2 (zero_line rh) rh
                  (natRepr 0) _ ((0 : Nat) : Int) hz (pySplit_zero_line rh hrh.1 hrh.2) hkey
                  (pyInt?_natRepr 0) hbr]
                rw [set_of_getq data2 i _ hz]
                exact ih (i + 1) _ data2 h
              | some total =>
                by_cases hv : v = (total : Int)
                · subst hv
                  rw [build_loop_step_hit _ _ _ _ _ _ _ _ _ _ _ hline hsp hkey hbr hcc] at h
                  have hl2 : data2[i]? = some line := by
                    rw [build_loop_ok_frame _ _ _ _ _ _ h i (by omega)]
                    exact hline
                  rw [build_loop_step_hit hash ownerId e rest i data2 line rh cc tl2 total
                    hl2 hsp hkey hbr hcc]
                  exact ih (i + 1) data data2 h
                · cases hwalk : recursive_loc ownerId e.script 0 0 0 with
                  | error we =>
                    rw [build_loop_step_walk_err _ _ _ _ _ _ _ _ _ _ _ _ _
                      hline hsp hkey hbr hcc hv hwalk] at h
                    cases h
                  | ok w =>
                    cases w with
                    | zero =>
                      rw [build_loop_step_walk_zero _ _ _ _ _ _ _ _ _ _ _ _
                        hline hsp hkey hbr hcc hv hwalk] at h
                      have hz : data2[i]? = some (zero_line rh) := by
                        rw [build_loop_ok_frame _ _ _ _ _ _ h i (by omega)]
                        exact getq_set_self data i _ hi
                      by_cases h0 : ((0 : Nat) : Int) = (total : Int)
                      · rw [build_loop_step_hit hash ownerId e rest i data2 (zero_line rh) rh
                          (natRepr 0) _ total hz (pySplit_zero_line rh hrh.1 hrh.2) hkey hbr
                          (by rw [pyInt?_natRepr 0, h0])]
                        exact ih (i + 1) _ data2 h
                      · rw [build_loop_step_walk_zero hash ownerId e rest i data2 (zero_line rh)
                          rh (natRepr 0) _ total ((0 : Nat) : Int) hz
                          (pySplit_zero_line rh hrh.1 hrh.2) hkey hbr (pyInt?_natRepr 0) h0
                          hwalk]
                        rw [set_of_getq data2 i _ hz]
                        exact ih (i + 1) _ data2 h
                    | locs a d m =>
                      rw [build_loop_step_walk_locs _ _ _ _ _ _ _ _ _ _ _ _ _ _ _
                        hline hsp hkey hbr hcc hv hwalk] at h
                      have hrec : data2[i]? = some (record_line rh total m a d) := by
                        rw [build_loop_ok_frame _ _ _ _ _ _ h i (by omega)]
                        exact getq_set_self data i _ hi
                      rw [build_loop_step_hit hash ownerId e rest i data2
                        (record_line rh total m a d) rh (natRepr total) _ total hrec
                        (pySplit_record rh hrh.1 hrh.2 total m a d) hkey hbr
                        (pyInt?_natRepr total)]
                      exact ih (i + 1) _ data2 h
          · rw [build_loop_step_miss _ _ _ _ _ _ _ _ _ _ hline hsp hkey] at h
            have hl2 : data2[i]? = some line := by
              rw [build_loop_ok_frame _ _ _ _ _ _ h i (by omega)]
              exact hline
            rw [build_loop_step_miss hash ownerId e rest i data2 line rh cc tl2 hl2 hsp hkey]
            exact ih (i + 1) data data2 h

/-! ## Lemmas on the history walker -/

theorem loc_author_fold_closed (oid : String) :
    ∀ (cs : List Commit) (acc : Nat × Nat × Nat),
      loc_author_fold oid acc cs =
        (acc.1 + (((cs.filter (fun c => c.author == some oid)).map Commit.additions).sum),
         acc.2.1 + (((cs.filter (fun c => c.author == some oid)).map Commit.deletions).sum),
         acc.2.2 + ((cs.filter (fun c => c.author == some oid)).length)) := by
  intro cs
  induction cs with
  | nil => intro acc; simp [loc_author_fold]
  | cons c t ih =>
    intro acc
    cases hc : (c.author == some oid) with
    | true =>
      simp only [loc_author_fold, hc, if_true, ih, List.filter_cons, List.map_cons,
        List.sum_cons, List.length_cons, Prod.mk.injEq]
      try omega
    | false =>
      simp only [loc_author_fold, hc, Bool.false_eq_true, if_false, ih, List.filter_cons]

theorem loc_author_fold_append (oid : String) (xs : List Commit) :
    ∀ (ys : List Commit) (acc : Nat × Nat × Nat),
      loc_author_fold oid acc (xs ++ ys) = loc_author_fold oid (loc_author_fold oid acc xs) ys := by
  induction xs with
  | nil => intro ys acc; rfl
  | cons c t ih =>
    intro ys acc
    cases hc : (c.author == some oid) with
    | true =>
      simp only [List.cons_append, loc_author_fold, hc, if_true, List.append_eq, ih]
    | false =>
      simp only [List.cons_append, loc_author_fold, hc, Bool.false_eq_true, if_false,
        List.append_eq, ih]

theorem fetch_200 (b : Option HistoryPage) : fetch (fun _ => Attempt.resp 200 b) = .ok b := rfl

theorem recursive_loc_step_200 (oid : String) (pg : HistoryPage)
    (rest : List (Nat → Attempt)) (a d m : Nat) :
    recursive_loc oid ((fun _ => Attempt.resp 200 (some pg)) :: rest) a d m =
      if pg.edges.isEmpty || !pg.hasNextPage then
        .ok (.locs (loc_author_fold oid (a, d, m) pg.edges).1
          (loc_author_fold oid (a, d, m) pg.edges).2.1
          (loc_author_fold oid (a, d, m) pg.edges).2.2)
      else recursive_loc oid rest (loc_author_fold oid (a, d, m) pg.edges).1
        (loc_author_fold oid (a, d, m) pg.edges).2.1
        (loc_author_fold oid (a, d, m) pg.edges).2.2 := by
  simp only [recursive_loc, fetch_200]

theorem recursive_loc_honest (oid : String) (tc : Nat) :
    ∀ (pages : List (List Commit)), pages ≠ [] → (∀ p ∈ pages, p ≠ []) →
      ∀ (a d m : Nat),
        recursive_loc oid (honestScript tc pages) a d m =
          .ok (.locs (loc_author_fold oid (a, d, m) pages.flatten).1
            (loc_author_fold oid (a, d, m) pages.flatten).2.1
            (loc_author_fold oid (a, d, m) pages.flatten).2.2) := by
  intro pages
  induction pages with
  | nil => intro h; exact absurd rfl h
  | cons p rest ih =>
    intro _ hne a d m
    have hp : p ≠ [] := hne p (by simp)
    have hpE : p.isEmpty = false := by
      cases p with
      | nil => exact absurd rfl hp
      | cons x t => rfl
    cases rest with
    | nil =>
      rw [show honestScript tc [p]
          = [fun _ => Attempt.resp 200 (some ⟨tc, p, !([] : List (List Commit)).isEmpty⟩)]
        from rfl]
      rw [recursive_loc_step_200]
      simp [hpE]
    | cons q rest2 =>
      have hq : (q :: rest2) ≠ [] := by simp
      have hne2 : ∀ x ∈ (q :: rest2), x ≠ [] := fun x hx => hne x (by simp [hx])
      rw [show honestScript tc (p :: q :: rest2)
          = (fun _ => Attempt.resp 200 (some ⟨tc, p, !(q :: rest2).isEmpty⟩))
              :: honestScript tc (q :: rest2) from rfl]
      rw [recursive_loc_step_200]
      rw [if_neg (by simp [hpE])]
      rw [ih hq hne2]
      simp only [List.flatten_cons, loc_author_fold_append]

theorem sublist_sum_le (l1 l2 : List Nat) (h : l1.Sublist l2) : l1.sum ≤ l2.sum := by
  induction h with
  | slnil => exact le_refl _
  | cons a _ ih => simp only [List.sum_cons]; omega
  | cons₂ a _ ih => simp only [List.sum_cons]; omega

theorem loc_author_fold_mono (oid : String) (C C' : List Commit) (h : C.Sublist C') :
    (loc_author_fold oid (0, 0, 0) C).1 ≤ (loc_author_fold oid (0, 0, 0) C').1
    ∧ (loc_author_fold oid (0, 0, 0) C).2.1 ≤ (loc_author_fold oid (0, 0, 0) C').2.1
    ∧ (loc_author_fold oid (0, 0, 0) C).2.2 ≤ (loc_author_fold oid (0, 0, 0) C').2.2 := by
  have hf : (C.filter (fun c => c.author == some oid)).Sublist
      (C'.filter (fun c => c.author == some oid)) := h.filter _
  rw [loc_author_fold_closed oid C (0, 0, 0), loc_author_fold_closed oid C' (0, 0, 0)]
  refine ⟨?_, ?_, ?_⟩
  · simpa using sublist_sum_le _ _ (hf.map Commit.additions)
  · simpa using sublist_sum_le _ _ (hf.map Commit.deletions)
  · simpa using hf.length_le

/-! ## Lemmas on the file-system trace -/

theorem runOps_append (s : FsState) (ops1 ops2 : List FsOp) :
    runOps s (ops1 ++ ops2) = runOps (runOps s ops1) ops2 := by
  simp [runOps, List.foldl_append]

theorem runOps_atomic (s : FsState) (c : List String) :
    runOps s [FsOp.writeTmp c, FsOp.replace] = ⟨some c, none⟩ := rfl

theorem finalFile_append_atomic (store : Option (List String)) (ops : List FsOp)
    (c : List String) :
    finalFile store (ops ++ [FsOp.writeTmp c, FsOp.replace]) = some c := by
  rw [finalFile, runOps_append, runOps_atomic]

theorem canonStates_blocks :
    ∀ (ops : List FsOp) (s : FsState), atomicBlocksB ops = true →
      ∀ st ∈ canonStates s ops, st = s.canon ∨ ∃ c, FsOp.writeTmp c ∈ ops ∧ st = some c
  | [], s, _, st, hst => by
    left
    simpa [canonStates] using hst
  | .writeTmp c :: .replace :: rest, s, h, st, hst => by
    have h' : atomicBlocksB rest = true := by simpa [atomicBlocksB] using h
    have hexp : canonStates s (.writeTmp c :: .replace :: rest)
        = s.canon :: s.canon :: canonStates ⟨some c, none⟩ rest := by
      simp only [canonStates, List.scanl_cons, List.map_cons]
      rfl
    rw [hexp] at hst
    rcases List.mem_cons.1 hst with rfl | hst2
    · exact Or.inl rfl
    · rcases List.mem_cons.1 hst2 with rfl | hst3
      · exact Or.inl rfl
      · rcases canonStates_blocks rest ⟨some c, none⟩ h' st hst3 with hc | ⟨c', hmem, hc⟩
        · exact Or.inr ⟨c, by simp, hc⟩
        · exact Or.inr ⟨c', by simp [hmem], hc⟩
  | .writeTmp c :: .writeTmp c' :: rest, _, h, _, _ => by simp [atomicBlocksB] at h
  | .writeTmp c :: .writeCanon c' :: rest, _, h, _, _ => by simp [atomicBlocksB] at h
  | .replace :: y :: rest, _, h, _, _ => by simp [atomicBlocksB] at h
  | .writeCanon c :: y :: rest, _, h, _, _ => by simp [atomicBlocksB] at h
  | [.writeTmp c], _, h, _, _ => by simp [atomicBlocksB] at h
  | [.replace], _, h, _, _ => by simp [atomicBlocksB] at h
  | [.writeCanon c], _, h, _, _ => by simp [atomicBlocksB] at h

/-! ## Assembly lemmas for the whole pass -/

theorem flush_content_eq (hash : String → String) (edges : List RepoNode) (cs : Nat)
    (cur : List String) :
    flush_content hash edges cs cur
      = cur.take cs ++ edges.map (fun e => zero_line (hash e.nameWithOwner)) := by
  unfold flush_content
  by_cases h : 0 < cs
  · rw [if_pos h]
  · have : cs = 0 := by omega
    subst this
    simp

theorem reconcile_cases (hash : String → String) (cs : Nat) (force : Bool)
    (edges : List RepoNode) (data0 : List String) :
    (((data0.length : Int) - (cs : Int) = (edges.length : Int)) ∧ force = false
      ∧ reconcile hash cs force edges data0 = (data0, true, []))
    ∨ ((((data0.length : Int) - (cs : Int) ≠ (edges.length : Int)) ∨ force = true)
        ∧ reconcile hash cs force edges data0
          = (flush_content hash edges cs data0, false,
             [FsOp.writeTmp (flush_content hash edges cs data0), FsOp.replace])) := by
  unfold reconcile flush_cache
  cases hcond : ((((data0.length : Int) - (cs : Int)) != (edges.length : Int)) || force) with
  | true =>
    right
    refine ⟨?_, by simp⟩
    rcases Bool.or_eq_true_iff.1 hcond with hb | hb
    · exact Or.inl (by simpa [bne_iff_ne] using hb)
    · exact Or.inr hb
  | false =>
    have h1 : ((data0.length : Int) - (cs : Int)) = (edges.length : Int) := by
      have := (Bool.or_eq_false_iff.1 hcond).1
      simpa [bne_eq_false_iff_eq] using this
    have h2 : force = false := (Bool.or_eq_false_iff.1 hcond).2
    exact Or.inl ⟨h1, h2, by simp⟩

theorem reconcile_eq_same (hash : String → String) (cs : Nat) (force : Bool)
    (edges : List RepoNode) (data0 : List String)
    (h1 : ((data0.length : Int) - (cs : Int)) = (edges.length : Int)) (h2 : force = false) :
    reconcile hash cs force edges data0 = (data0, true, []) := by
  rcases reconcile_cases hash cs force edges data0 with ⟨_, _, heq⟩ | ⟨hc, _⟩
  · exact heq
  · rcases hc with hc | hc
    · exact absurd h1 hc
    · rw [h2] at hc; cases hc

theorem reconcile_eq_flush (hash : String → String) (cs : Nat) (force : Bool)
    (edges : List RepoNode) (data0 : List String)
    (h : ((data0.length : Int) - (cs : Int) ≠ (edges.length : Int)) ∨ force = true) :
    reconcile hash cs force edges data0
      = (flush_content hash edges cs data0, false,
         [FsOp.writeTmp (flush_content hash edges cs data0), FsOp.replace]) := by
  rcases reconcile_cases hash cs force edges data0 with ⟨h1, h2, heq⟩ | ⟨_, heq⟩
  · rcases h with hc | hc
    · exact absurd h1 hc
    · rw [h2] at hc; cases hc
  · exact heq

theorem reconcile_ops_shape (hash : String → String) (cs : Nat) (force : Bool)
    (edges : List RepoNode) (data0 : List String) :
    (reconcile hash cs force edges data0).2.2 = []
    ∨ ∃ c, (reconcile hash cs force edges data0).2.2 = [FsOp.writeTmp c, FsOp.replace] := by
  rcases reconcile_cases hash cs force edges data0 with ⟨_, _, heq⟩ | ⟨_, heq⟩
  · left; rw [heq]
  · right; exact ⟨flush_content hash edges cs data0, by rw [heq]⟩

theorem reconcile_lengths (hash : String → String) (cs : Nat) (force : Bool)
    (edges : List RepoNode) (data0 : List String) (hcs : cs ≤ data0.length) :
    ((reconcile hash cs force edges data0).1.take cs).length = cs
    ∧ ((reconcile hash cs force edges data0).1.drop cs).length = edges.length := by
  rcases reconcile_cases hash cs force edges data0 with ⟨h1, _, heq⟩ | ⟨_, heq⟩
  · rw [heq]
    dsimp only
    have hlen : data0.length = cs + edges.length := by omega
    exact ⟨by rw [List.length_take, Nat.min_eq_left (by omega)],
      by rw [List.length_drop]; omega⟩
  · rw [heq]
    dsimp only
    rw [flush_content_eq]
    have htk : (data0.take cs).length = cs := by
      rw [List.length_take]; exact Nat.min_eq_left hcs
    exact ⟨by rw [List.take_left' htk, htk], by rw [List.drop_left' htk, List.length_map]⟩

theorem blocks_two (xs ys : List FsOp)
    (hx : xs = [] ∨ ∃ c, xs = [FsOp.writeTmp c, FsOp.replace])
    (hy : ys = [] ∨ ∃ c, ys = [FsOp.writeTmp c, FsOp.replace]) :
    atomicBlocksB (xs ++ ys) = true := by
  rcases hx with rfl | ⟨c, rfl⟩ <;> rcases hy with rfl | ⟨c', rfl⟩ <;> simp [atomicBlocksB]

theorem finalFile_atomic (store : Option (List String)) (c : List String) :
    finalFile store [FsOp.writeTmp c, FsOp.replace] = some c := rfl

theorem finalFile_writeCanon (c : List String) (rest : List FsOp) :
    finalFile none (FsOp.writeCanon c :: rest) = finalFile (some c) rest := rfl

theorem cache_builder_none (hash : String → String) (oid : String) (cs : Nat) (force : Bool)
    (edges : List RepoNode) :
    cache_builder hash oid cs force edges none
      = (FsOp.writeCanon (List.replicate cs comment_line)
          :: ((reconcile hash cs force edges (List.replicate cs comment_line)).2.2
            ++ (cache_finish hash oid edges
                ((reconcile hash cs force edges (List.replicate cs comment_line)).1.take cs)
                ((reconcile hash cs force edges (List.replicate cs comment_line)).1.drop cs)
                (reconcile hash cs force edges (List.replicate cs comment_line)).2.1).1),
         (reconcile hash cs force edges (List.replicate cs comment_line)).2.1,
         (cache_finish hash oid edges
              ((reconcile hash cs force edges (List.replicate cs comment_line)).1.take cs)
              ((reconcile hash cs force edges (List.replicate cs comment_line)).1.drop cs)
              (reconcile hash cs force edges (List.replicate cs comment_line)).2.1).2) := by
  simp [cache_builder]

theorem cache_finish_ok (hash : String → String) (oid : String) (edges : List RepoNode)
    (comment recs : List String) (cached : Bool) (data2 : List String) (A D : Int)
    (hb : build_loop hash oid edges 0 recs = .ok data2)
    (hs : sum_loop data2 0 0 = .ok (A, D)) :
    cache_finish hash oid edges comment recs cached
      = ([FsOp.writeTmp (comment ++ data2), FsOp.replace], .ok (A, D, A - D, cached)) := by
  simp [cache_finish, hb, hs]

theorem cache_finish_ok_inv (hash : String → String) (oid : String) (edges : List RepoNode)
    (comment recs : List String) (cached : Bool) (a d n : Int) (c : Bool)
    (h : (cache_finish hash oid edges comment recs cached).2 = .ok (a, d, n, c)) :
    ∃ data2, build_loop hash oid edges 0 recs = .ok data2
      ∧ sum_loop data2 0 0 = .ok (a, d) ∧ n = a - d ∧ c = cached
      ∧ (cache_finish hash oid edges comment recs cached).1
          = [FsOp.writeTmp (comment ++ data2), FsOp.replace] := by
  unfold cache_finish at h ⊢
  cases hb : build_loop hash oid edges 0 recs with
  | error pd =>
    obtain ⟨pe, dd⟩ := pd
    cases pe <;> simp [hb] at h
  | ok data2 =>
    cases hs : sum_loop data2 0 0 with
    | error pe => simp [hb, hs] at h
    | ok ad =>
      obtain ⟨A, D⟩ := ad
      simp only [hb, hs] at h ⊢
      simp only [Except.ok.injEq, Prod.mk.injEq] at h
      obtain ⟨ha, hd, hn, hc⟩ := h
      exact ⟨data2, rfl, by rw [← ha, ← hd]; exact hs, by omega, hc.symm, rfl⟩

theorem cache_finish_walk (hash : String → String) (oid : String) (edges : List RepoNode)
    (comment recs : List String) (cached : Bool) (we : WalkErr) (dcrash : List String)
    (hb : build_loop hash oid edges 0 recs = .error (.walk we, dcrash)) :
    cache_finish hash oid edges comment recs cached
      = ([FsOp.writeTmp (comment ++ dcrash), FsOp.replace], .error (.walk we)) := by
  simp [cache_finish, hb, force_close_file]

theorem cache_finish_ops_shape (hash : String → String) (oid : String) (edges : List RepoNode)
    (comment recs : List String) (cached : Bool) :
    (cache_finish hash oid edges comment recs cached).1 = []
    ∨ ∃ c, (cache_finish hash oid edges comment recs cached).1
        = [FsOp.writeTmp c, FsOp.replace] := by
  unfold cache_finish force_close_file
  cases hb : build_loop hash oid edges 0 recs with
  | error pd =>
    obtain ⟨pe, dd⟩ := pd
    cases pe with
    | valueError => left; simp [hb]
    | indexError => left; simp [hb]
    | walk we => right; exact ⟨comment ++ dd, by simp [hb]⟩
  | ok data2 =>
    right
    refine ⟨comment ++ data2, ?_⟩
    cases hs : sum_loop data2 0 0 with
    | error pe => simp [hb, hs]
    | ok ad => obtain ⟨A, D⟩ := ad; simp [hb, hs]

theorem cache_builder_some (hash : String → String) (oid : String) (cs : Nat) (force : Bool)
    (edges : List RepoNode) (data0 : List String) :
    cache_builder hash oid cs force edges (some data0)
      = ((reconcile hash cs force edges data0).2.2
          ++ (cache_finish hash oid edges
              ((reconcile hash cs force edges data0).1.take cs)
              ((reconcile hash cs force edges data0).1.drop cs)
              (reconcile hash cs force edges data0).2.1).1,
         (reconcile hash cs force edges data0).2.1,
         (cache_finish hash oid edges
              ((reconcile hash cs force edges data0).1.take cs)
              ((reconcile hash cs force edges data0).1.drop cs)
              (reconcile hash cs force edges data0).2.1).2) := by
  simp [cache_builder]

/-- Core of the idempotence argument: if the post-reconcile part of a run
succeeds and the initial store had a full header, the file it persisted is
a fixpoint of a second run, which reports `cached = true`. -/
theorem c7_core (hash : String → String) (oid : String) (cs : Nat) (edges : List RepoNode)
    (data0 : List String) (a d n : Int) (c1 : Bool) (hcs : cs ≤ data0.length)
    (hok : (cache_finish hash oid edges ((reconcile hash cs false edges data0).1.take cs)
        ((reconcile hash cs false edges data0).1.drop cs)
        (reconcile hash cs false edges data0).2.1).2 = .ok (a, d, n, c1)) :
    ∃ F1,
      (cache_finish hash oid edges ((reconcile hash cs false edges data0).1.take cs)
          ((reconcile hash cs false edges data0).1.drop cs)
          (reconcile hash cs false edges data0).2.1).1
        = [FsOp.writeTmp F1, FsOp.replace]
      ∧ cache_builder hash oid cs false edges (some F1)
          = ([FsOp.writeTmp F1, FsOp.replace], true, .ok (a, d, n, true)) := by
  obtain ⟨data2, hb, hs, hn, hc1, hops⟩ :=
    cache_finish_ok_inv hash oid edges _ _ _ a d n c1 hok
  obtain ⟨hTK, hDR⟩ := reconcile_lengths hash cs false edges data0 hcs
  have hd2len : data2.length = edges.length := by
    have hl := build_loop_length hash oid edges 0 ((reconcile hash cs false edges data0).1.drop cs)
    rw [hb] at hl
    rw [← hDR]
    exact hl
  refine ⟨(reconcile hash cs false edges data0).1.take cs ++ data2, hops, ?_⟩
  have hF1len : ((reconcile hash cs false edges data0).1.take cs ++ data2).length
      = cs + edges.length := by
    rw [List.length_append, hTK, hd2len]
  have hrec2 : reconcile hash cs false edges
      ((reconcile hash cs false edges data0).1.take cs ++ data2)
      = ((reconcile hash cs false edges data0).1.take cs ++ data2, true, []) := by
    refine reconcile_eq_same hash cs false edges _ ?_ rfl
    rw [hF1len]
    push_cast
    ring
  rw [cache_builder_some, hrec2]
  dsimp only
  rw [List.take_left' hTK, List.drop_left' hTK]
  rw [cache_finish_ok hash oid edges _ _ true data2 a d
    (build_loop_fixpoint hash oid edges 0 _ data2 hb) hs]
  rw [hn]
  simp

/-! ## Claim theorems -/

/-- C1: with an existing store, the skeleton is rebuilt iff the stored
line count minus the header size differs from the supplied repository
count or the force flag is set; the rebuild preserves the header block,
discards all records, writes one zero-valued record (`key 0 0 0 0`) per
supplied repository keyed by the digest of its `owner/name`, in order, and
persists it atomically (temp write, then rename) as the first file-system
operations of the pass, before the staleness loop's own write. -/
theorem claim_c1_skeleton_rebuild (hash : String → String) (oid : String) (cs : Nat)
    (force : Bool) (edges : List RepoNode) (data0 : List String) :
    ((cache_builder hash oid cs force edges (some data0)).2.1 = false
      ↔ (((data0.length : Int) - (cs : Int) ≠ (edges.length : Int)) ∨ force = true))
    ∧ ((((data0.length : Int) - (cs : Int) ≠ (edges.length : Int)) ∨ force = true) →
        ∃ rest, (cache_builder hash oid cs force edges (some data0)).1
          = FsOp.writeTmp (data0.take cs
              ++ edges.map (fun e => hash e.nameWithOwner ++ " 0 0 0 0\n"))
            :: FsOp.replace :: rest) := by
  constructor
  · rw [cache_builder_some]
    dsimp only
    constructor
    · intro hfalse
      rcases reconcile_cases hash cs force edges data0 with ⟨_, _, heq⟩ | ⟨hc, _⟩
      · rw [heq] at hfalse
        simp at hfalse
      · exact hc
    · intro hc
      rw [reconcile_eq_flush hash cs force edges data0 hc]
  · intro hc
    rw [cache_builder_some, reconcile_eq_flush hash cs force edges data0 hc]
    dsimp only
    refine ⟨(cache_finish hash oid edges ((flush_content hash edges cs data0).take cs)
      ((flush_content hash edges cs data0).drop cs) false).1, ?_⟩
    simp [flush_content_eq, zero_line]

theorem claim_c1_witness :
    (((([] : List String).length : Int) - ((0 : Nat) : Int)
        ≠ (([] : List RepoNode).length : Int)) ∨ true = true)
    ∧ ∃ rest, (cache_builder (fun _ => "K") "me" 0 true [] (some [])).1
        = FsOp.writeTmp (([] : List String).take 0
            ++ ([] : List RepoNode).map (fun e => (fun _ => "K") e.nameWithOwner
              ++ " 0 0 0 0\n"))
          :: FsOp.replace :: rest :=
  ⟨Or.inr rfl,
    (claim_c1_skeleton_rebuild (fun _ => "K") "me" 0 true [] []).2 (Or.inr rfl)⟩

/-- C2: the history walker's page accumulation counts only commits whose
author account id equals the tracked id: the fold over a page adds exactly
the filtered sums of additions, deletions, and the filtered commit count;
in particular a page of 3 commits with one tracked-author commit (+10, -2)
and two foreign commits (+100, -50) yields exactly (10, 2, 1), both at the
fold level and through a full one-page walk. -/
theorem claim_c2_identity_filtering :
    (∀ (oid : String) (acc : Nat × Nat × Nat) (cs : List Commit),
      loc_author_fold oid acc cs
        = (acc.1 + ((cs.filter (fun c => c.author == some oid)).map Commit.additions).sum,
           acc.2.1 + ((cs.filter (fun c => c.author == some oid)).map Commit.deletions).sum,
           acc.2.2 + (cs.filter (fun c => c.author == some oid)).length))
    ∧ loc_author_fold "me" (0, 0, 0)
        [⟨some "me", 10, 2⟩, ⟨some "other", 100, 50⟩, ⟨none, 100, 50⟩] = (10, 2, 1)
    ∧ recursive_loc "me"
        (honestScript 3 [[⟨some "me", 10, 2⟩, ⟨some "other", 100, 50⟩, ⟨none, 100, 50⟩]])
        0 0 0 = .ok (.locs 10 2 1) :=
  ⟨fun oid acc cs => loc_author_fold_closed oid cs acc, by decide, by decide⟩

/-- C3 counterexample: a malformed record line (a single whitespace-free
token, so the tuple unpack of `line.split()` fails) does not cause the
position to be skipped — the pass raises `ValueError` and aborts, contrary
to the claim that the pass continues without raising. -/
theorem claim_c3_counterexample :
    cache_builder (fun _ => "K") "me" 0 false [⟨"a/b", some 1, []⟩] (some ["x\n"])
      = ([], true, .error .valueError) := by decide

/-- C3 amended: a stored key different from the freshly computed key causes
the position to be skipped without updating it and the pass continues over
the remaining positions; a malformed record line (fewer than two
whitespace-separated fields) instead raises `ValueError`, aborting the
pass with the record list untouched. -/
theorem claim_c3_amended (hash : String → String) (oid : String) (e : RepoNode)
    (es : List RepoNode) (i : Nat) (data : List String) (line : String) :
    (∀ rh cc tl, data[i]? = some line → pySplit line = rh :: cc :: tl →
        rh ≠ hash e.nameWithOwner →
        build_loop hash oid (e :: es) i data = build_loop hash oid es (i + 1) data)
    ∧ (data[i]? = some line → (pySplit line).length < 2 →
        build_loop hash oid (e :: es) i data = .error (.valueError, data)) := by
  constructor
  · intro rh cc tl hline hsplit hkey
    exact build_loop_step_miss hash oid e es i data line rh cc tl hline hsplit hkey
  · intro hline hlen
    cases hsp : pySplit line with
    | nil => exact build_loop_step_nil hash oid e es i data line hline hsp
    | cons x tl =>
      cases tl with
      | nil => exact build_loop_step_single hash oid e es i data line x hline hsp
      | cons y tl2 => rw [hsp] at hlen; simp at hlen; omega

theorem claim_c3_witness :
    ((["k1 1 0 0 0\n"] : List String)[0]? = some "k1 1 0 0 0\n"
      ∧ pySplit "k1 1 0 0 0\n" = ["k1", "1", "0", "0", "0"]
      ∧ "k1" ≠ (fun _ => "K") "a/b"
      ∧ build_loop (fun _ => "K") "me" [⟨"a/b", some 1, []⟩] 0 ["k1 1 0 0 0\n"]
          = build_loop (fun _ => "K") "me" [] 1 ["k1 1 0 0 0\n"])
    ∧ ((["x\n"] : List String)[0]? = some "x\n" ∧ (pySplit "x\n").length < 2
      ∧ build_loop (fun _ => "K") "me" [⟨"a/b", some 1, []⟩] 0 ["x\n"]
          = .error (.valueError, ["x\n"])) :=
  ⟨⟨by decide, by decide, by decide,
    (claim_c3_amended (fun _ => "K") "me" ⟨"a/b", some 1, []⟩ [] 0 ["k1 1 0 0 0\n"]
      "k1 1 0 0 0\n").1 "k1" "1" ["0", "0", "0"] (by decide) (by decide) (by decide)⟩,
   ⟨by decide, by decide,
    (claim_c3_amended (fun _ => "K") "me" ⟨"a/b", some 1, []⟩ [] 0 ["x\n"] "x\n").2
      (by decide) (by decide)⟩⟩

/-- C4: a non-retryable walk failure aborts the whole pass: the crash
guard persists, atomically, the header plus the record list exactly as it
stood (earlier positions finalized, the in-progress repository's partial
sums discarded: the error carries the list untouched at the failing
position), and the error propagates to the caller; exhausted network
retries, persistent 5xx, a 403, and any other unexpected status all abort
the fetch. -/
theorem claim_c4_abort_crash_guard (hash : String → String) (oid : String) (cs : Nat)
    (force : Bool) (edges : List RepoNode) (data0 : List String) (we : WalkErr)
    (dcrash : List String) :
    (build_loop hash oid edges 0 ((reconcile hash cs force edges data0).1.drop cs)
        = .error (.walk we, dcrash) →
      cache_builder hash oid cs force edges (some data0)
        = ((reconcile hash cs force edges data0).2.2
            ++ [FsOp.writeTmp ((reconcile hash cs force edges data0).1.take cs ++ dcrash),
              FsOp.replace],
           (reconcile hash cs force edges data0).2.1, .error (.walk we)))
    ∧ (∀ (e : RepoNode) (es : List RepoNode) (i : Nat) (data : List String)
        (line rh cc : String) (tl : List String) (total : Nat) (v : Int),
        data[i]? = some line → pySplit line = rh :: cc :: tl →
        rh = hash e.nameWithOwner → e.branchTotal = some total → pyInt? cc = some v →
        v ≠ (total : Int) → recursive_loc oid e.script 0 0 0 = .error we →
        build_loop hash oid (e :: es) i data = .error (.walk we, data))
    ∧ fetch (fun _ => Attempt.netErr) = .error .network
    ∧ fetch (fun _ => Attempt.resp 503 none) = .error (.server 503)
    ∧ fetch (fun _ => Attempt.resp 403 none) = .error .forbidden
    ∧ fetch (fun _ => Attempt.resp 418 none) = .error (.unexpected 418) := by
  refine ⟨?_, ?_, by decide, by decide, by decide, by decide⟩
  · intro h
    rw [cache_builder_some,
      cache_finish_walk hash oid edges ((reconcile hash cs force edges data0).1.take cs)
        ((reconcile hash cs force edges data0).1.drop cs)
        (reconcile hash cs force edges data0).2.1 we dcrash h]
  · intro e es i data line rh cc tl total v hline hsplit hkey hbr hcc hv hwalk
    exact build_loop_step_walk_err hash oid e es i data line rh cc tl total v we
      hline hsplit hkey hbr hcc hv hwalk

theorem claim_c4_witness :
    build_loop wit_hash "me" wit_edges 0
        ((reconcile wit_hash 1 false wit_edges wit_store).1.drop 1)
      = .error (.walk .forbidden, ["KA 7 1 2 3\n", "KB 4 1 2 3\n"])
    ∧ cache_builder wit_hash "me" 1 false wit_edges (some wit_store)
        = ((reconcile wit_hash 1 false wit_edges wit_store).2.2
            ++ [FsOp.writeTmp ((reconcile wit_hash 1 false wit_edges wit_store).1.take 1
                ++ ["KA 7 1 2 3\n", "KB 4 1 2 3\n"]), FsOp.replace],
           (reconcile wit_hash 1 false wit_edges wit_store).2.1,
           .error (.walk .forbidden)) :=
  ⟨by decide,
    (claim_c4_abort_crash_guard wit_hash "me" 1 false wit_edges wit_store .forbidden
      ["KA 7 1 2 3\n", "KB 4 1 2 3\n"]).1 (by decide)⟩

/-- C5: when the stored key at a position matches the supplied
repository's key and the stored commit count parses to exactly the freshly
fetched total, the loop leaves the record list unchanged and continues,
and no history recomputation occurs: the step's outcome is the same for
every possible walk script of that repository. -/
theorem claim_c5_cache_hit_frame (hash : String → String) (oid : String) (e : RepoNode)
    (es : List RepoNode) (i : Nat) (data : List String) (line rh cc : String)
    (tl : List String) (total : Nat) (hline : data[i]? = some line)
    (hsplit : pySplit line = rh :: cc :: tl) (hkey : rh = hash e.nameWithOwner)
    (hbr : e.branchTotal = some total) (hcc : pyInt? cc = some (total : Int)) :
    ∀ sc : List (Nat → Attempt),
      build_loop hash oid
        ({ nameWithOwner := e.nameWithOwner, branchTotal := e.branchTotal, script := sc } :: es)
        i data
        = build_loop hash oid es (i + 1) data := by
  intro sc
  exact build_loop_step_hit hash oid ⟨e.nameWithOwner, e.branchTotal, sc⟩ es i data line
    rh cc tl total hline hsplit hkey hbr hcc

theorem claim_c5_witness :
    (["K 5 1 2 3\n"] : List String)[0]? = some "K 5 1 2 3\n"
    ∧ pySplit "K 5 1 2 3\n" = ["K", "5", "1", "2", "3"]
    ∧ "K" = (fun _ => "K") "a/b"
    ∧ (RepoNode.mk "a/b" (some 5) []).branchTotal = some 5
    ∧ pyInt? "5" = some ((5 : Nat) : Int)
    ∧ build_loop (fun _ => "K") "me"
        [{ nameWithOwner := "a/b", branchTotal := some 5,
           script := [fun _ => Attempt.netErr] }] 0 ["K 5 1 2 3\n"]
      = build_loop (fun _ => "K") "me" [] 1 ["K 5 1 2 3\n"] :=
  ⟨by decide, by decide, by decide, by decide, by decide,
    claim_c5_cache_hit_frame (fun _ => "K") "me" ⟨"a/b", some 5, []⟩ [] 0 ["K 5 1 2 3\n"]
      "K 5 1 2 3\n" "K" "5" ["1", "2", "3"] 5 (by decide) (by decide) (by decide)
      (by decide) (by decide) [fun _ => Attempt.netErr]⟩

/-- C6: a repository with no default-branch reference does not fail the
pass, provided its stored commit count parses as an integer (Python
evaluates `int(commit_count)` before subscripting the null branch, so an
unparsable count raises `ValueError` instead — but every record this
program writes has a numeric count): its record is replaced by the
zero-valued record (`key 0 0 0 0`: total, own commits, added, deleted all
zero) and the loop continues with the remaining positions; at the walker
level a 200 response with a null branch ends the walk immediately (no
retry) with the zero outcome. -/
theorem claim_c6_empty_repo (hash : String → String) (oid : String) (e : RepoNode)
    (es : List RepoNode) (i : Nat) (data : List String) (line rh cc : String)
    (tl : List String) (v : Int) (hline : data[i]? = some line)
    (hsplit : pySplit line = rh :: cc :: tl) (hkey : rh = hash e.nameWithOwner)
    (hcc : pyInt? cc = some v) (hbr : e.branchTotal = none) :
    build_loop hash oid (e :: es) i data
      = build_loop hash oid es (i + 1) (data.set i (rh ++ " 0 0 0 0\n"))
    ∧ ∀ (sc : List (Nat → Attempt)) (a d m : Nat),
        recursive_loc oid ((fun _ => Attempt.resp 200 none) :: sc) a d m = .ok .zero := by
  constructor
  · exact build_loop_step_nobranch hash oid e es i data line rh cc tl v
      hline hsplit hkey hcc hbr
  · intro sc a d m
    rfl

theorem claim_c6_witness :
    (["K 5 1 2 3\n"] : List String)[0]? = some "K 5 1 2 3\n"
    ∧ pySplit "K 5 1 2 3\n" = ["K", "5", "1", "2", "3"]
    ∧ pyInt? "5" = some (5 : Int)
    ∧ build_loop (fun _ => "K") "me" [⟨"a/b", none, []⟩] 0 ["K 5 1 2 3\n"]
        = build_loop (fun _ => "K") "me" [] 1 (["K 5 1 2 3\n"].set 0 ("K" ++ " 0 0 0 0\n"))
    ∧ recursive_loc "me" [fun _ => Attempt.resp 200 none] 0 0 0 = .ok .zero :=
  ⟨by decide, by decide, by decide,
    (claim_c6_empty_repo (fun _ => "K") "me" ⟨"a/b", none, []⟩ [] 0 ["K 5 1 2 3\n"]
      "K 5 1 2 3\n" "K" "5" ["1", "2", "3"] 5 (by decide) (by decide) (by decide)
      (by decide) rfl).1,
    (claim_c6_empty_repo (fun _ => "K") "me" ⟨"a/b", none, []⟩ [] 0 ["K 5 1 2 3\n"]
      "K 5 1 2 3\n" "K" "5" ["1", "2", "3"] 5 (by decide) (by decide) (by decide)
      (by decide) rfl).2 [] 0 0 0⟩

/-- C7 counterexample: with an empty repository list and an existing store
holding fewer lines than the header size (here: empty file, header size
one), both runs rebuild the skeleton, so the second run still returns
`wasFullyCached = false` even though nothing changed remotely —
contradicting the claim that the second run returns `wasFullyCached =
true`.  (Stored records are still identical.) -/
theorem claim_c7_counterexample :
    (cache_builder (fun _ => "K") "me" 1 false [] (some [])).2.2 = .ok (0, 0, 0, false)
    ∧ (cache_builder (fun _ => "K") "me" 1 false []
        (finalFile (some []) (cache_builder (fun _ => "K") "me" 1 false [] (some [])).1)).2.2
      = .ok (0, 0, 0, false) := ⟨by decide, by decide⟩

/-- C7 amended: under the additional precondition that the initial store,
when present, holds at least `comment_size` lines (always true for a store
this program created, and vacuously for an absent store), a successful run
followed by a second run with the same repository list, no force flag and
unchanged remote yields the identical stored file, the same sums, and
`wasFullyCached = true` on the second run. -/
theorem claim_c7_amended (hash : String → String) (oid : String) (cs : Nat)
    (edges : List RepoNode) (store : Option (List String)) (t1 : List FsOp) (b1 : Bool)
    (a d n : Int) (c1 : Bool)
    (hstore : ∀ d0, store = some d0 → cs ≤ d0.length)
    (h1 : cache_builder hash oid cs false edges store = (t1, b1, .ok (a, d, n, c1))) :
    ∃ t2, cache_builder hash oid cs false edges (finalFile store t1)
        = (t2, true, .ok (a, d, n, true))
      ∧ finalFile (finalFile store t1) t2 = finalFile store t1 := by
  cases store with
  | some data0 =>
    have hcs : cs ≤ data0.length := hstore data0 rfl
    rw [cache_builder_some] at h1
    have hok : (cache_finish hash oid edges
        ((reconcile hash cs false edges data0).1.take cs)
        ((reconcile hash cs false edges data0).1.drop cs)
        (reconcile hash cs false edges data0).2.1).2 = .ok (a, d, n, c1) := by
      have hpr := congrArg (fun x => x.2.2) h1
      simpa using hpr
    have ht1 : t1 = (reconcile hash cs false edges data0).2.2
        ++ (cache_finish hash oid edges
            ((reconcile hash cs false edges data0).1.take cs)
            ((reconcile hash cs false edges data0).1.drop cs)
            (reconcile hash cs false edges data0).2.1).1 := by
      have hpr := congrArg (fun x => x.1) h1
      simpa using hpr.symm
    obtain ⟨F1, hops, hrun2⟩ := c7_core hash oid cs edges data0 a d n c1 hcs hok
    have hFF : finalFile (some data0) t1 = some F1 := by
      rw [ht1, hops]
      exact finalFile_append_atomic _ _ _
    rw [hFF]
    exact ⟨[FsOp.writeTmp F1, FsOp.replace], hrun2, finalFile_atomic _ _⟩
  | none =>
    have hcs : cs ≤ (List.replicate cs comment_line).length := by
      rw [List.length_replicate]
    rw [cache_builder_none] at h1
    have hok : (cache_finish hash oid edges
        ((reconcile hash cs false edges (List.replicate cs comment_line)).1.take cs)
        ((reconcile hash cs false edges (List.replicate cs comment_line)).1.drop cs)
        (reconcile hash cs false edges (List.replicate cs comment_line)).2.1).2
        = .ok (a, d, n, c1) := by
      have hpr := congrArg (fun x => x.2.2) h1
      simpa using hpr
    have ht1 : t1 = FsOp.writeCanon (List.replicate cs comment_line)
        :: ((reconcile hash cs false edges (List.replicate cs comment_line)).2.2
          ++ (cache_finish hash oid edges
              ((reconcile hash cs false edges (List.replicate cs comment_line)).1.take cs)
              ((reconcile hash cs false edges (List.replicate cs comment_line)).1.drop cs)
              (reconcile hash cs false edges (List.replicate cs comment_line)).2.1).1) := by
      have hpr := congrArg (fun x => x.1) h1
      simpa using hpr.symm
    obtain ⟨F1, hops, hrun2⟩ :=
      c7_core hash oid cs edges (List.replicate cs comment_line) a d n c1 hcs hok
    have hFF : finalFile none t1 = some F1 := by
      rw [ht1, hops, finalFile_writeCanon]
      exact finalFile_append_atomic _ _ _
    rw [hFF]
    exact ⟨[FsOp.writeTmp F1, FsOp.replace], hrun2, finalFile_atomic _ _⟩

theorem claim_c7_witness :
    (∀ d0, (some wit_store) = some d0 → 1 ≤ d0.length)
    ∧ cache_builder wit_hash "me" 1 false [⟨"a/b", some 7, []⟩, ⟨"c/d", some 4, []⟩]
        (some wit_store)
      = ([FsOp.writeTmp wit_store, FsOp.replace], true, .ok (4, 6, -2, true))
    ∧ ∃ t2, cache_builder wit_hash "me" 1 false [⟨"a/b", some 7, []⟩, ⟨"c/d", some 4, []⟩]
          (finalFile (some wit_store) [FsOp.writeTmp wit_store, FsOp.replace])
        = (t2, true, .ok (4, 6, -2, true))
      ∧ finalFile (finalFile (some wit_store) [FsOp.writeTmp wit_store, FsOp.replace]) t2
          = finalFile (some wit_store) [FsOp.writeTmp wit_store, FsOp.replace] :=
  ⟨fun d0 h => by cases h; decide, by decide,
    claim_c7_amended wit_hash "me" 1 [⟨"a/b", some 7, []⟩, ⟨"c/d", some 4, []⟩]
      (some wit_store) [FsOp.writeTmp wit_store, FsOp.replace] true 4 6 (-2) true
      (fun d0 h => by cases h; decide) (by decide)⟩

/-- C8: for append-only histories (the earlier walk's commit sequence is a
sublist of the later one) with a strictly increased total-commit-count
signal, the recomputed tracked-author sums — lines added, lines deleted,
own commit count — are each at least their earlier recomputed values. -/
theorem claim_c8_monotonicity (oid : String) (pages pages' : List (List Commit))
    (tc tc' : Nat) (hp : pages ≠ []) (hpe : ∀ p ∈ pages, p ≠ [])
    (hp' : pages' ≠ []) (hpe' : ∀ p ∈ pages', p ≠ []) (htc : tc < tc')
    (hsub : pages.flatten.Sublist pages'.flatten) :
    ∃ a d m a' d' m',
      recursive_loc oid (honestScript tc pages) 0 0 0 = .ok (.locs a d m)
      ∧ recursive_loc oid (honestScript tc' pages') 0 0 0 = .ok (.locs a' d' m')
      ∧ a ≤ a' ∧ d ≤ d' ∧ m ≤ m' := by
  refine ⟨_, _, _, _, _, _, recursive_loc_honest oid tc pages hp hpe 0 0 0,
    recursive_loc_honest oid tc' pages' hp' hpe' 0 0 0, ?_, ?_, ?_⟩
  · exact (loc_author_fold_mono oid _ _ hsub).1
  · exact (loc_author_fold_mono oid _ _ hsub).2.1
  · exact (loc_author_fold_mono oid _ _ hsub).2.2

theorem claim_c8_witness :
    ((1 : Nat) < 2)
    ∧ ([[Commit.mk (some "me") 1 1]].flatten).Sublist
        ([[Commit.mk (some "me") 1 1], [Commit.mk (some "me") 2 3]].flatten)
    ∧ ∃ a d m a' d' m',
      recursive_loc "me" (honestScript 1 [[Commit.mk (some "me") 1 1]]) 0 0 0
        = .ok (.locs a d m)
      ∧ recursive_loc "me"
          (honestScript 2 [[Commit.mk (some "me") 1 1], [Commit.mk (some "me") 2 3]]) 0 0 0
        = .ok (.locs a' d' m')
      ∧ a ≤ a' ∧ d ≤ d' ∧ m ≤ m' :=
  ⟨by omega, by simp,
    claim_c8_monotonicity "me" [[Commit.mk (some "me") 1 1]]
      [[Commit.mk (some "me") 1 1], [Commit.mk (some "me") 2 3]] 1 2
      (by simp) (by simp) (by simp) (by simp) (by omega) (by simp)⟩

/-- C9: a pass over an existing store only touches the file system in
complete-temp-write + atomic-rename pairs (normal end-of-pass write,
skeleton rebuild, crash-guard primary path), so every canonical-file
content observable during the pass is either the original store content or
the complete content of one of the temp writes — never a truncated
mixture. -/
theorem claim_c9_atomic_persistence (hash : String → String) (oid : String) (cs : Nat)
    (force : Bool) (edges : List RepoNode) (data0 : List String) :
    atomicBlocksB (cache_builder hash oid cs force edges (some data0)).1 = true
    ∧ ∀ st ∈ canonStates (initState (some data0))
          (cache_builder hash oid cs force edges (some data0)).1,
        st = some data0
          ∨ ∃ c, FsOp.writeTmp c ∈ (cache_builder hash oid cs force edges (some data0)).1
              ∧ st = some c := by
  have hblocks : atomicBlocksB (cache_builder hash oid cs force edges (some data0)).1
      = true := by
    rw [cache_builder_some]
    dsimp only
    exact blocks_two _ _ (reconcile_ops_shape hash cs force edges data0)
      (cache_finish_ops_shape hash oid edges _ _ _)
  refine ⟨hblocks, ?_⟩
  intro st hst
  exact canonStates_blocks _ (initState (some data0)) hblocks st hst

theorem claim_c9_witness :
    atomicBlocksB (cache_builder wit_hash "me" 1 true wit_edges (some wit_store)).1 = true
    ∧ (some (["hdr\n", "KA 0 0 0 0\n", "KB 0 0 0 0\n"] : List String) = some wit_store
        ∨ ∃ c, FsOp.writeTmp c ∈ (cache_builder wit_hash "me" 1 true wit_edges
            (some wit_store)).1
          ∧ some (["hdr\n", "KA 0 0 0 0\n", "KB 0 0 0 0\n"] : List String) = some c) :=
  ⟨(claim_c9_atomic_persistence wit_hash "me" 1 true wit_edges wit_store).1,
    (claim_c9_atomic_persistence wit_hash "me" 1 true wit_edges wit_store).2
      (some ["hdr\n", "KA 0 0 0 0\n", "KB 0 0 0 0\n"]) (by decide)⟩

/-- C10: if the store, when present, holds at least `comment_size` lines
(and a freshly created store holds exactly `comment_size`), then after the
reconcile step the record-line list has exactly one line per supplied
repository, and the per-repository loop never fails with `IndexError`:
every positional read is in range. -/
theorem claim_c10_index_safety (hash : String → String) (oid : String) (cs : Nat)
    (force : Bool) (edges : List RepoNode) (data0 : List String) (h : cs ≤ data0.length) :
    ((reconcile hash cs force edges data0).1.drop cs).length = edges.length
    ∧ ∀ dd, build_loop hash oid edges 0 ((reconcile hash cs force edges data0).1.drop cs)
        ≠ .error (.indexError, dd) := by
  have hlen := (reconcile_lengths hash cs force edges data0 h).2
  refine ⟨hlen, fun dd => ?_⟩
  exact build_loop_no_index_error hash oid edges 0 _ (by rw [hlen]; omega) dd

theorem claim_c10_witness :
    ((1 : Nat) ≤ wit_store.length)
    ∧ ((reconcile wit_hash 1 false wit_edges wit_store).1.drop 1).length = wit_edges.length
    ∧ build_loop wit_hash "me" wit_edges 0
        ((reconcile wit_hash 1 false wit_edges wit_store).1.drop 1)
      ≠ .error (.indexError, []) :=
  ⟨by decide, (claim_c10_index_safety wit_hash "me" 1 false wit_edges wit_store
      (by decide)).1,
    (claim_c10_index_safety wit_hash "me" 1 false wit_edges wit_store (by decide)).2 []⟩

end Today
